import Mathlib

/-!
Yuni::Process::Program: the configuration facade, its command-line tokenizer,
execution, waiting, the terminal update of the monitor and the dispatch of
an execution.

A shallow embedding of `src/yuni/core/process/program/program.cpp`.

* Strings (`Yuni::String`, `AnyString`) are lists of characters; the tokenizer
  walks the text character by character (the source uses the UTF-8 iterator
  of `AnyString`, one step per character).
* The shared record `ProcessSharedInfo` is a structure; the facade `Program`
  holds an optional reference to it (`pEnv`), allocated lazily.
* Release-build semantics: `assert` is compiled out, so a guarded setter
  simply skips its assignment.
* The mutex is not modelled: every operation is one atomic step on the record.
* What the operating system and the clock answer (the outcome of the spawn,
  how the child ended, the time) is passed to the operations as arguments.
* Integers of the source (`int`, `sint64`) are integers here; the one
  arithmetic operation of the source, the subtraction that gives the duration,
  wraps at 64 bits as `sint64` does.
-/

namespace Yuni.Process

/-- Text as a sequence of characters. -/
abbrev Str := List Char

/-! ## Characters the tokenizer switches on -/

/-- The double quote character. -/
def dquote : Char := Char.ofNat 34
/-- The single quote character. -/
def squote : Char := Char.ofNat 39
/-- The backslash character. -/
def backslash : Char := Char.ofNat 92
/-- The space character. -/
def space : Char := Char.ofNat 32
/-- The horizontal tab, also the output of the escape letter t. -/
def tab : Char := Char.ofNat 9
/-- Line feed, the output of the escape letter n. -/
def lf : Char := Char.ofNat 10
/-- Carriage return, the output of the escape letter r. -/
def cr : Char := Char.ofNat 13
/-- Backspace, the output of the escape letter b. -/
def bs : Char := Char.ofNat 8
/-- Form feed, the output of the escape letter f. -/
def ff : Char := Char.ofNat 12
/-- Vertical tab, the output of the escape letter v. -/
def vt : Char := Char.ofNat 11
/-- The NUL character: the output of the escape digit 0 and the value of
`instring` outside a quoted string. -/
def nul : Char := Char.ofNat 0

/-! ## Data model -/

/-- The precision of the measured duration (`Program::DurationPrecision`). -/
inductive DurationPrecision where
  | dpNone
  | dpSeconds
  | dpMilliseconds
  deriving DecidableEq, Repr

/-- The identity of an output sink (`Stream::Ptr`). -/
abbrev Stream := Nat

/-- The per-execution monitor (`Program::ThreadMonitor`), as its constructor
initialises it, plus whether its thread was started. -/
structure ThreadMonitor where
  stream : Option Stream
  pRedirectToConsole : Bool
  pExitStatus : Int
  pKilled : Bool
  pStartTime : Int
  pEndTime : Int
  pDurationPrecision : DurationPrecision
  started : Bool
  deriving DecidableEq, Repr

/-- The shared process state (`Program::ProcessSharedInfo`). -/
structure ProcessSharedInfo where
  executable : Str
  arguments : List Str
  workingDirectory : Str
  redirectToConsole : Bool
  durationPrecision : DurationPrecision
  running : Bool
  processID : Int
  processInput : Int
  exitstatus : Int
  duration : Int
  timeout : Nat
  thread : Option ThreadMonitor
  deriving DecidableEq, Repr

/-- Modelled from the spec: the constructor of `ProcessSharedInfo`
(`process-info.h` is not part of the sources at hand). A new record is idle,
has an empty configuration, the zero status, and the defaults the getters of
`program.cpp` report when no record exists: console redirection on and a
precision of seconds. -/
def ProcessSharedInfo.new : ProcessSharedInfo where
  executable := []
  arguments := []
  workingDirectory := []
  redirectToConsole := true
  durationPrecision := DurationPrecision.dpSeconds
  running := false
  processID := 0
  processInput := -1
  exitstatus := 0
  duration := 0
  timeout := 0
  thread := none

/-- The facade (`Program`): an optional reference to the shared record and an
optional reference to the sink. -/
structure Program where
  pEnv : Option ProcessSharedInfo
  pStream : Option Stream := none
  deriving DecidableEq, Repr

/-- The record an operation works on: the existing one, or a new one when the
facade has none yet (`if (!envptr) envptr = new ProcessSharedInfo()`). -/
def Program.envOrNew (p : Program) : ProcessSharedInfo :=
  match p.pEnv with
  | some env => env
  | none => ProcessSharedInfo.new

/-! ## Trimming -/

/-- The characters `trim` removes: space, tab, carriage return, line feed. -/
def isTrimSpace (c : Char) : Bool :=
  c = space || c = tab || c = cr || c = lf

/-- Modelled from the spec: `AnyString::trim()` (the string class is not part
of the sources at hand): leading and trailing whitespace is removed. -/
def trim (s : Str) : Str :=
  (s.dropWhile isTrimSpace).rdropWhile isTrimSpace

/-! ## The tokenizer loop of `Program::commandLine` -/

/-- Where the local pointer `str` points: at `env.executable`, or at
`env.arguments.back()`. -/
inductive StrTarget where
  | executable
  | argumentsBack
  deriving DecidableEq, Repr

/-- What the loop reads and writes: the two fields of the record it fills and
its two locals `str` and `instring`. -/
structure LoopState where
  executable : Str
  arguments : List Str
  str : StrTarget
  instring : Char
  deriving DecidableEq, Repr

/-- Append `cs` to the last string of a vector (nothing to do on an empty one). -/
def appendBack : List Str → Str → List Str
  | [], _ => []
  | [a], cs => [a ++ cs]
  | a :: b :: t, cs => a :: appendBack (b :: t) cs

/-- The string `*str`. -/
def LoopState.cur (st : LoopState) : Str :=
  match st.str with
  | StrTarget.executable => st.executable
  | StrTarget.argumentsBack => st.arguments.getLastD []

/-- The statement `*str += cs`. -/
def LoopState.append (st : LoopState) (cs : Str) : LoopState :=
  match st.str with
  | StrTarget.executable => { st with executable := st.executable ++ cs }
  | StrTarget.argumentsBack => { st with arguments := appendBack st.arguments cs }

/-- The quote case: `case dquote: case squote:`. -/
def quoteCase (c : Char) (st : LoopState) : LoopState :=
  if st.instring = nul then { st with instring := c }
  else if st.instring = c then { st with instring := nul }
  else st.append [c]

/-- The inner switch of the backslash case, on the character after the
backslash. -/
def escapeCase (c : Char) (st : LoopState) : LoopState :=
  if c = 'n' then st.append [lf]
  else if c = 't' then st.append [tab]
  else if c = 'r' then st.append [cr]
  else if c = 'b' then st.append [bs]
  else if c = 'f' then st.append [ff]
  else if c = 'v' then st.append [vt]
  else if c = '0' then st.append [nul]
  else if c = 'e' ∨ c = 'a' ∨ c = 'E' then st
  else st.append [backslash, c]

/-- The whitespace case: `case space: case tab:`. Outside a string a non-empty
`*str` makes the loop push an empty argument and point `str` at it; inside a
string the character `c` is appended. -/
def spaceCase (c : Char) (st : LoopState) : LoopState :=
  if st.instring = nul then
    if st.cur ≠ [] then
      { st with arguments := st.arguments ++ [[]], str := StrTarget.argumentsBack }
    else st
  else st.append [c]

/-- The `for` loop over the characters of the trimmed text. The backslash
case advances the iterator once more, returns when the text ends there, and
otherwise runs the inner switch; it has no `break`, so control then falls
into the whitespace case with `c` holding the character after the backslash. -/
def tokenize : Str → LoopState → LoopState
  | [], st => st
  | c :: rest, st =>
    if c = dquote ∨ c = squote then tokenize rest (quoteCase c st)
    else if c = backslash then
      match rest with
      | [] => st
      | c2 :: rest2 => tokenize rest2 (spaceCase c2 (escapeCase c2 st))
    else if c = space ∨ c = tab then tokenize rest (spaceCase c st)
    else tokenize rest (st.append [c])

/-- The state the loop starts in: both fields cleared, `str` pointing at the
executable, not inside a string. -/
def LoopState.init : LoopState where
  executable := []
  arguments := []
  str := StrTarget.executable
  instring := nul

/-! ## Operations of the facade -/

/-- The setter `Program::commandLine(AnyString cmd)`. It trims the text, takes
or allocates the record, clears `executable` and `arguments`, returns at once
on an empty text and otherwise runs the tokenizer loop. It does not look at
`running`. -/
def Program.commandLine (p : Program) (cmd : Str) : Program :=
  let cmd := trim cmd
  let env := p.envOrNew
  let env := { env with executable := [], arguments := [] }
  if cmd = [] then { p with pEnv := some env }
  else
    let r := tokenize cmd LoopState.init
    { p with pEnv := some { env with executable := r.executable, arguments := r.arguments } }

/-- The setter `Program::workingDirectory(const AnyString&)`: no guard. -/
def Program.workingDirectory (p : Program) (directory : Str) : Program :=
  let env := p.envOrNew
  { p with pEnv := some { env with workingDirectory := directory } }

/-- The setter `Program::redirectToConsole(bool)`: without a record, a true
flag allocates nothing; otherwise the flag is stored, with no guard. -/
def Program.redirectToConsole (p : Program) ( flag : Bool) : Program :=
  match p.pEnv with
  | none =>
    if flag then p
    else { p with pEnv := some { ProcessSharedInfo.new with redirectToConsole := flag } }
  | some env => { p with pEnv := some { env with redirectToConsole := flag } }

/-- The setter `Program::program(const AnyString&)`: guarded by `running`. -/
def Program.program (p : Program) (prgm : Str) : Program :=
  let env := p.envOrNew
  if env.running then { p with pEnv := some env }
  else { p with pEnv := some { env with executable := prgm } }

/-- The operation `Program::argumentClear()`: nothing without a record;
guarded by `running`. -/
def Program.argumentClear (p : Program) : Program :=
  match p.pEnv with
  | none => p
  | some env =>
    if env.running then p
    else { p with pEnv := some { env with arguments := [] } }

/-- The operation `Program::argumentAdd(const AnyString&)`: guarded by
`running`. -/
def Program.argumentAdd (p : Program) (arg : Str) : Program :=
  let env := p.envOrNew
  if env.running then { p with pEnv := some env }
  else { p with pEnv := some { env with arguments := env.arguments ++ [arg] } }

/-- The setter `Program::durationPrecision(DurationPrecision)`: guarded by
`running`. -/
def Program.durationPrecision (p : Program) (precision : DurationPrecision) : Program :=
  let env := p.envOrNew
  if env.running then { p with pEnv := some env }
  else { p with pEnv := some { env with durationPrecision := precision } }

/-- The executable and the arguments a facade holds (empty without a record). -/
def Program.config (p : Program) : Str × List Str :=
  match p.pEnv with
  | some env => (env.executable, env.arguments)
  | none => ([], [])

/-- The getter `Program::running()`: false without a record. -/
def Program.running (p : Program) : Bool :=
  match p.pEnv with
  | none => false
  | some env => env.running

/-! ## The monitor -/

/-- The readings of the clock: `DateTime::Now()` and `DateTime::NowMilliSeconds()`. -/
structure Clock where
  now : Int
  nowMilliSeconds : Int
  deriving DecidableEq, Repr

/-- A call of the sink's `onStop(killed, exitstatus, duration)`. -/
structure OnStop where
  stream : Stream
  killed : Bool
  exitstatus : Int
  duration : Int
  deriving DecidableEq, Repr

/-- What the operating system answers to a spawn: a live process, with its
identifier and the handle of its input, or a failure. -/
inductive SpawnResult where
  | spawned (processID : Int) (processInput : Int)
  | failed
  deriving DecidableEq, Repr

/-- How the child ended, as the operating system reports it to the monitor. -/
structure ChildExit where
  killed : Bool
  exitstatus : Int
  deriving DecidableEq, Repr

/-- The constructor `ThreadMonitor(Program& process)`, for a facade whose
record is `env`. -/
def ThreadMonitor.new (pStream : Option Stream) (env : ProcessSharedInfo) : ThreadMonitor where
  stream := pStream
  pRedirectToConsole := env.redirectToConsole
  pExitStatus := -1
  pKilled := false
  pStartTime := -1
  pEndTime := 0
  pDurationPrecision := env.durationPrecision
  started := false

/-- The time at the requested precision: `ThreadMonitor::currentTime()`. -/
def ThreadMonitor.currentTime (m : ThreadMonitor) (clock : Clock) : Int :=
  match m.pDurationPrecision with
  | DurationPrecision.dpSeconds => clock.now
  | DurationPrecision.dpMilliseconds => clock.nowMilliSeconds
  | DurationPrecision.dpNone => 0

/-- Modelled from the spec: `ThreadMonitor::spawnProcess()` (the platform
files `unix.inc.hpp` and `windows.inc.hpp` are not part of the sources at
hand). The spawn primitive returns a live process handle or a failure. On
success the monitor records the start timestamp at the requested precision and
the record receives the process identifier and the input handle. A failure is
reported by the result false and leaves `running` false in the record (the
spec has a failed spawn leave `running == false`, and `execute` itself does
not clear the flag on that path). -/
def ThreadMonitor.spawnProcess (m : ThreadMonitor) (os : SpawnResult) (clock : Clock)
    (env : ProcessSharedInfo) : Bool × ThreadMonitor × ProcessSharedInfo :=
  match os with
  | SpawnResult.failed => (false, m, { env with running := false })
  | SpawnResult.spawned pid input =>
    (true, { m with pStartTime := m.currentTime clock },
      { env with processID := pid, processInput := input })

/-- The value a 64-bit signed integer (`sint64`) holds when a computation
yields `x`: `x` wrapped into the range from -2^63 to 2^63 - 1. -/
def wrapSint64 (x : Int) : Int :=
  (x + 9223372036854775808) % 18446744073709551616 - 9223372036854775808

/-- The terminal update `ThreadMonitor::theProcessHasStopped(killed, exitstatus)`.
It returns the monitor, the shared record and the calls made on the sink.
An end time of zero is replaced by the current time (the assertion is off);
the duration is the difference of the two timestamps, computed in `sint64`,
when the end is not before the start, and zero otherwise;
the record is written only when it is still `running`, and only then is the
sink, when there is one, notified and released. The field `thread` of the
record is a reference and is not touched. -/
def ThreadMonitor.theProcessHasStopped (m : ThreadMonitor) (clock : Clock) (killed : Bool)
    (exitstatus : Int) (env : ProcessSharedInfo) :
    ThreadMonitor × ProcessSharedInfo × List OnStop :=
  let m1 := if m.pEndTime = 0 then { m with pEndTime := m.currentTime clock } else m
  let duration :=
    if m1.pEndTime ≥ m1.pStartTime then wrapSint64 (m1.pEndTime - m1.pStartTime) else 0
  if env.running = false then (m1, env, [])
  else
    let env1 := { env with running := false, processInput := -1, exitstatus := exitstatus,
                           duration := duration }
    match m1.stream with
    | some s => ({ m1 with stream := none }, env1, [OnStop.mk s killed exitstatus duration])
    | none => (m1, env1, [])

/-- Modelled from the spec: `ThreadMonitor::waitForSubProcess()` (in the
platform files, not part of the sources at hand): the monitor blocks until the
child has ended, collects the exit status and the kill flag and records the
end timestamp. -/
def ThreadMonitor.waitForSubProcess (m : ThreadMonitor) (exit : ChildExit) (clock : Clock) :
    ThreadMonitor :=
  { m with pExitStatus := exit.exitstatus, pKilled := exit.killed,
           pEndTime := m.currentTime clock }

/-- The body of the monitor thread, `ThreadMonitor::onExecute()`: some reset,
the wait for the child, then the terminal update.
(`cleanupAfterChildTermination` releases handles owned by the monitor, which
are not modelled.) -/
def ThreadMonitor.onExecute (m : ThreadMonitor) (exit : ChildExit) (clock : Clock)
    (env : ProcessSharedInfo) : ThreadMonitor × ProcessSharedInfo × List OnStop :=
  let m0 := { m with pExitStatus := 0, pKilled := false, pEndTime := 0 }
  let m1 := m0.waitForSubProcess exit clock
  m1.theProcessHasStopped clock m1.pKilled m1.pExitStatus env

/-- Modelled from the spec: `IThread::wait()` on the monitor (the thread
primitive is not part of the sources at hand): the caller blocks until the
monitor thread has finished. A started monitor has then run `onExecute`; a
monitor that was never started lets the caller through at once. -/
def ThreadMonitor.join (m : ThreadMonitor) (exit : ChildExit) (clock : Clock)
    (env : ProcessSharedInfo) : ThreadMonitor × ProcessSharedInfo × List OnStop :=
  if m.started then m.onExecute exit clock env else (m, env, [])

/-! ## Execution and waiting -/

/-- The operation `Program::execute(uint timeout)`; `os` is what the spawn
primitive answers should it be called. The result is the returned flag and the
facade afterwards. A running record makes it return false at once. Otherwise
`running` is set and the status fields are reset; an empty executable then
clears `running` and returns true; else a monitor is created and stored in
`thread`, the process is spawned from the calling thread, the monitor thread
is started when the spawn succeeded, and the outcome of the spawn is
returned. -/
def Program.execute (p : Program) (timeout : Nat) (os : SpawnResult) (clock : Clock) :
    Bool × Program :=
  let env := p.envOrNew
  if env.running then (false, { p with pEnv := some env })
  else
    let env1 := { env with running := true, processID := 0, processInput := -1,
                           exitstatus := -128, timeout := timeout, duration := 0 }
    if env1.executable = [] then (true, { p with pEnv := some { env1 with running := false } })
    else
      let newthread := ThreadMonitor.new p.pStream env1
      let env2 := { env1 with thread := some newthread }
      let r := newthread.spawnProcess os clock env2
      let m := if r.1 then { r.2.1 with started := true } else r.2.1
      (r.1, { p with pEnv := some { r.2.2 with thread := some m } })

/-- The operation `Program::wait(sint64* duration)`; `exit` is how the child
ends should the call have to block. The result is the returned exit status
with the duration, the facade afterwards, and the calls made on the sink
meanwhile. Without a record it returns zero and zero. A record that is not
`running`, or has no monitor, gives its stored status at once. Otherwise the
caller blocks until the monitor thread has finished, clears `thread` and
reads the status. -/
def Program.wait (p : Program) (exit : ChildExit) (clock : Clock) :
    (Int × Int) × Program × List OnStop :=
  match p.pEnv with
  | none => ((0, 0), p, [])
  | some env =>
    match env.running, env.thread with
    | true, some thread =>
      let r := thread.join exit clock env
      let env1 := { r.2.1 with thread := none }
      ((env1.exitstatus, env1.duration), { p with pEnv := some env1 }, r.2.2)
    | _, _ => ((env.exitstatus, env.duration), p, [])

/-- The terminal update of a monitor `m`, as a step on the facade: it acts on
the shared record (a monitor exists only once a record does). -/
def Program.monitorStopped (p : Program) (m : ThreadMonitor) (clock : Clock) (killed : Bool)
    (exitstatus : Int) : Program :=
  match p.pEnv with
  | none => p
  | some env => { p with pEnv := some (m.theProcessHasStopped clock killed exitstatus env).2.1 }

/-- The states a facade can reach: from a fresh facade (no record yet, with or
without a sink) through the configuration operations, `execute`, `wait`, and
the terminal update of a monitor. -/
inductive Reachable : Program → Prop where
  | fresh (sink : Option Stream) : Reachable { pEnv := none, pStream := sink }
  | commandLine {p : Program} (cmd : Str) : Reachable p → Reachable (p.commandLine cmd)
  | workingDirectory {p : Program} (d : Str) : Reachable p → Reachable (p.workingDirectory d)
  | redirectToConsole {p : Program} (f : Bool) : Reachable p → Reachable (p.redirectToConsole f)
  | program {p : Program} (prgm : Str) : Reachable p → Reachable (p.program prgm)
  | argumentClear {p : Program} : Reachable p → Reachable p.argumentClear
  | argumentAdd {p : Program} (arg : Str) : Reachable p → Reachable (p.argumentAdd arg)
  | durationPrecision {p : Program} (pr : DurationPrecision) :
      Reachable p → Reachable (p.durationPrecision pr)
  | execute {p : Program} (timeout : Nat) (os : SpawnResult) (clock : Clock) :
      Reachable p → Reachable (p.execute timeout os clock).2
  | wait {p : Program} (exit : ChildExit) (clock : Clock) :
      Reachable p → Reachable (p.wait exit clock).2.1
  | monitorStopped {p : Program} (m : ThreadMonitor) (clock : Clock) (killed : Bool)
      (exitstatus : Int) : Reachable p → Reachable (p.monitorStopped m clock killed exitstatus)

/-- The facades on which `execute` was never called: a fresh facade and what
the configuration operations make of it. -/
inductive NeverExecuted : Program → Prop where
  | fresh (sink : Option Stream) : NeverExecuted { pEnv := none, pStream := sink }
  | commandLine {p : Program} (cmd : Str) : NeverExecuted p → NeverExecuted (p.commandLine cmd)
  | workingDirectory {p : Program} (d : Str) :
      NeverExecuted p → NeverExecuted (p.workingDirectory d)
  | redirectToConsole {p : Program} (f : Bool) :
      NeverExecuted p → NeverExecuted (p.redirectToConsole f)
  | program {p : Program} (prgm : Str) : NeverExecuted p → NeverExecuted (p.program prgm)
  | argumentClear {p : Program} : NeverExecuted p → NeverExecuted p.argumentClear
  | argumentAdd {p : Program} (arg : Str) : NeverExecuted p → NeverExecuted (p.argumentAdd arg)
  | durationPrecision {p : Program} (pr : DurationPrecision) :
      NeverExecuted p → NeverExecuted (p.durationPrecision pr)

/-- The exit status and the duration a facade has stored (zero and zero
without a record). -/
def Program.status (p : Program) : Int × Int :=
  match p.pEnv with
  | some env => (env.exitstatus, env.duration)
  | none => (0, 0)

/-- The monitor reference a facade has stored, if any. -/
def Program.thread (p : Program) : Option ThreadMonitor :=
  match p.pEnv with
  | some env => env.thread
  | none => none

/-- A fresh facade given the empty command line. -/
def emptyCommand : Program :=
  Program.commandLine { pEnv := none } []

/-- A fresh facade given the command line `/no`. -/
def noSuchBinary : Program :=
  Program.commandLine { pEnv := none } ['/', 'n', 'o']

/-- The facade after `program(ls)` and a successful `execute`. -/
def spawnedLs : Program :=
  ((Program.program { pEnv := none } ['l', 's']).execute 0 (SpawnResult.spawned 42 7)
    (Clock.mk 100 100000)).2

/-- The record of `spawnedLs`. -/
def spawnedLsEnv : ProcessSharedInfo :=
  spawnedLs.envOrNew

/-- The time between a start and an end timestamp: their difference when the
end is not before the start, zero otherwise. -/
def elapsed (pStartTime pEndTime : Int) : Int :=
  if pEndTime ≥ pStartTime then pEndTime - pStartTime else 0

/-- A monitor with a sink attached, started at time 100 and ended at time 104. -/
def endedMonitor : ThreadMonitor :=
  { ThreadMonitor.new (some 1) spawnedLsEnv with
      pStartTime := 100, pEndTime := 104, started := true }

/-- A monitor as constructed for the running `ls` (start time -1), with the
largest `sint64` as its end time. -/
def overflowMonitor : ThreadMonitor :=
  { ThreadMonitor.new none spawnedLsEnv with pEndTime := 9223372036854775807 }

/-- The invariant of the status fields of a record: while `running` is set,
the exit status and the duration hold the values `execute` reset them to. -/
def StatusInv (env : ProcessSharedInfo) : Prop :=
  env.running = true → env.exitstatus = -128 ∧ env.duration = 0

/-- A record that has never been through `execute`: idle, with the zero status. -/
def ZeroStatus (env : ProcessSharedInfo) : Prop :=
  env.running = false ∧ env.exitstatus = 0 ∧ env.duration = 0

/-! ## Getters -/

/-- The getter `Program::program()`: the empty string without a record. -/
def Program.getProgram (p : Program) : Str :=
  match p.pEnv with
  | none => []
  | some env => env.executable

/-- The getter `Program::workingDirectory()`: the empty string without a record. -/
def Program.getWorkingDirectory (p : Program) : Str :=
  match p.pEnv with
  | none => []
  | some env => env.workingDirectory

/-- The getter `Program::redirectToConsole()`: true without a record. -/
def Program.getRedirectToConsole (p : Program) : Bool :=
  match p.pEnv with
  | none => true
  | some env => env.redirectToConsole

/-- The getter `Program::durationPrecision()`: seconds without a record. -/
def Program.getDurationPrecision (p : Program) : DurationPrecision :=
  match p.pEnv with
  | some env => env.durationPrecision
  | none => DurationPrecision.dpSeconds

/-! ## Dispatching the execution -/

/-- The helper of `dispatchExecution` (`ExecutionHelper`, release build): its
copy of the facade, which shares the record of the original, the result slot
(not set before `perform` has run), and whether its signal was notified. -/
structure ExecutionHelper where
  process : Program
  result : Option Bool
  notified : Bool
  deriving DecidableEq, Repr

/-- The callback `ExecutionHelper::perform(timeout)`: it runs `execute` on the
helper's facade, stores the result, notifies the signal and returns true. -/
def ExecutionHelper.perform (h : ExecutionHelper) (timeout : Nat) (os : SpawnResult)
    (clock : Clock) : Bool × ExecutionHelper :=
  let r := h.process.execute timeout os clock
  (true, { h with process := r.2, result := some r.1, notified := true })

/-- A dispatcher: given the callback, it decides whether, and how often, the
callback runs on the helper. -/
abbrev Dispatcher := (ExecutionHelper → Bool × ExecutionHelper) → ExecutionHelper → ExecutionHelper

/-- The dispatcher that invokes the callback it is given exactly once. -/
def Dispatcher.once : Dispatcher :=
  fun callback h => (callback h).2

/-- The operation `Program::dispatchExecution(dispatcher, timeout)`;
`signalValid` is what `signal.valid()` answers. The record is allocated first
if need be. An invalid signal makes it return false at once. Otherwise the
helper is handed to the dispatcher through the callback, the caller waits for
the signal, and the helper's result is returned with the facade afterwards.
Modelled from the spec: `Thread::Signal` (not part of the sources at hand) is
a one-shot signal, so the wait returns once `notify` was called; when it never
is, the caller blocks for ever and there is no result (`none`). -/
def Program.dispatchExecution (p : Program) (signalValid : Bool) (dispatcher : Dispatcher)
    (timeout : Nat) (os : SpawnResult) (clock : Clock) : Option (Bool × Program) :=
  let p1 := { p with pEnv := some p.envOrNew }
  if signalValid = false then some (false, p1)
  else
    let runner : ExecutionHelper := { process := p1, result := none, notified := false }
    let runner1 := dispatcher (fun h => h.perform timeout os clock) runner
    if runner1.notified then
      match runner1.result with
      | some r => some (r, { p1 with pEnv := runner1.process.pEnv })
      | none => none
    else none

/-- The facade `spawnedLs` once its monitor has seen the child end at time 104
with exit status 0 and has made its terminal update; `wait` was not called. -/
def finishedLs : Program :=
  match spawnedLs.thread with
  | some m =>
    spawnedLs.monitorStopped (m.waitForSubProcess (ChildExit.mk false 0) (Clock.mk 104 104000))
      (Clock.mk 104 104000) false 0
  | none => spawnedLs

/-! ## Character classes used by the statements -/

/-- A plain character: not a space, tab, carriage return or line feed, not a
quote and not a backslash. -/
def isPlain (c : Char) : Bool :=
  c ≠ space && c ≠ tab && c ≠ cr && c ≠ lf && c ≠ squote && c ≠ dquote && c ≠ backslash

/-- A separator character: a space or a tab. -/
def isSep (c : Char) : Bool :=
  c = space || c = tab

/-- A plain word: non-empty, of plain characters only. -/
def PlainWord (w : Str) : Prop :=
  w ≠ [] ∧ ∀ c ∈ w, isPlain c = true

/-- A separator: a non-empty run of spaces and tabs. -/
def Separator (s : Str) : Prop :=
  s ≠ [] ∧ ∀ c ∈ s, isSep c = true

/-- The text that follows the first word: each further word preceded by its
separator. -/
def joinWords : List (Str × Str) → Str
  | [] => []
  | sw :: rest => sw.1 ++ sw.2 ++ joinWords rest

/-- The state after the whitespace case has pushed an empty argument. -/
def LoopState.pushed (st : LoopState) : LoopState :=
  { st with arguments := st.arguments ++ [[]], str := StrTarget.argumentsBack }

/-- A text ends with a plain character. -/
def EndsPlain (t : Str) : Prop :=
  ∃ ini x, t = ini ++ [x] ∧ isPlain x = true

instance (w : Str) : Decidable (PlainWord w) :=
  inferInstanceAs (Decidable (w ≠ [] ∧ ∀ c ∈ w, isPlain c = true))

instance (s : Str) : Decidable (Separator s) :=
  inferInstanceAs (Decidable (s ≠ [] ∧ ∀ c ∈ s, isSep c = true))

/-- A text does not end in whitespace (space, tab, carriage return, line feed). -/
def NoTrailingSpace (t : Str) : Prop :=
  ∀ x, t.getLast? = some x → isTrimSpace x = false

/-- The invariant of the loop: `str` points at the executable exactly as long
as no argument was pushed, and every argument but the last is non-empty. -/
def LoopInv (st : LoopState) : Prop :=
  (st.str = StrTarget.executable → st.arguments = []) ∧
  (st.str = StrTarget.argumentsBack → st.arguments ≠ []) ∧
  (∀ a ∈ st.arguments.dropLast, a ≠ [])

/-- A facade in the middle of a run, configured to run `ls -l`. -/
def runningLs : Program :=
  { pEnv := some { ProcessSharedInfo.new with
      executable := ['l', 's'], arguments := [['-', 'l']], running := true } }

/-! ## Basic facts about the loop state -/

theorem eq_nil_or_snoc {α : Type} (l : List α) : l = [] ∨ ∃ L b, l = L ++ [b] := by
  rcases List.eq_nil_or_concat l with h | ⟨L, b, h⟩
  · exact Or.inl h
  · exact Or.inr ⟨L, b, by simpa using h⟩

theorem appendBack_nil_right (l : List Str) : appendBack l [] = l := by
  induction l with
  | nil => rfl
  | cons a t ih =>
    cases t with
    | nil => simp [appendBack]
    | cons b t => simp [appendBack, ih]

theorem appendBack_appendBack (l : List Str) (a b : Str) :
    appendBack (appendBack l a) b = appendBack l (a ++ b) := by
  induction l with
  | nil => rfl
  | cons x t ih =>
    cases t with
    | nil => simp [appendBack]
    | cons y t =>
      cases t with
      | nil => simp [appendBack]
      | cons z t => simpa [appendBack] using ih

theorem appendBack_concat (l : List Str) (a cs : Str) :
    appendBack (l ++ [a]) cs = l ++ [a ++ cs] := by
  induction l with
  | nil => rfl
  | cons x t ih =>
    cases t with
    | nil => simp [appendBack]
    | cons y t => simpa [appendBack] using ih

@[simp] theorem LoopState.append_instring (st : LoopState) (cs : Str) :
    (st.append cs).instring = st.instring := by
  unfold LoopState.append; cases st.str <;> rfl

@[simp] theorem LoopState.append_str (st : LoopState) (cs : Str) :
    (st.append cs).str = st.str := by
  unfold LoopState.append; cases h : st.str <;> simp [h]

theorem LoopState.append_nil (st : LoopState) : st.append [] = st := by
  cases st with
  | mk e a s i => cases s <;> simp [LoopState.append, appendBack_nil_right]

theorem LoopState.append_append (st : LoopState) (a b : Str) :
    (st.append a).append b = st.append (a ++ b) := by
  unfold LoopState.append; cases h : st.str <;> simp [h, appendBack_appendBack]

theorem isPlain_ne {c : Char} (h : isPlain c = true) :
    c ≠ space ∧ c ≠ tab ∧ c ≠ cr ∧ c ≠ lf ∧ c ≠ squote ∧ c ≠ dquote ∧ c ≠ backslash := by
  simpa [isPlain, and_assoc] using h

theorem isPlain_not_trimSpace {c : Char} (h : isPlain c = true) : isTrimSpace c = false := by
  obtain ⟨h1, h2, h3, h4, -⟩ := isPlain_ne h
  simp [isTrimSpace, h1, h2, h3, h4]

/-! ## One step of the loop -/

/-- The body of the loop, for a text with at least one character left. -/
theorem tokenize_cons (c : Char) (rest : Str) (st : LoopState) :
    tokenize (c :: rest) st =
      if c = dquote ∨ c = squote then tokenize rest (quoteCase c st)
      else if c = backslash then
        match rest with
        | [] => st
        | c2 :: rest2 => tokenize rest2 (spaceCase c2 (escapeCase c2 st))
      else if c = space ∨ c = tab then tokenize rest (spaceCase c st)
      else tokenize rest (st.append [c]) := by
  cases rest <;> rfl

theorem tokenize_cons_plain (c : Char) (rest : Str) (st : LoopState) (h : isPlain c = true) :
    tokenize (c :: rest) st = tokenize rest (st.append [c]) := by
  obtain ⟨h1, h2, -, -, h5, h6, h7⟩ := isPlain_ne h
  rw [tokenize_cons]
  simp [h1, h2, h5, h6, h7]

theorem tokenize_plain (w rest : Str) (st : LoopState) (h : ∀ c ∈ w, isPlain c = true) :
    tokenize (w ++ rest) st = tokenize rest (st.append w) := by
  induction w generalizing st with
  | nil => simp [LoopState.append_nil]
  | cons c w ih =>
    have hc : isPlain c = true := h c (List.mem_cons_self c w)
    have hw : ∀ x ∈ w, isPlain x = true := fun x hx => h x (List.mem_cons_of_mem c hx)
    rw [List.cons_append, tokenize_cons_plain c _ st hc, ih _ hw, LoopState.append_append]
    rfl

theorem isSep_cases {c : Char} (h : isSep c = true) : c = space ∨ c = tab := by
  simpa [isSep] using h

theorem tokenize_cons_sep (c : Char) (rest : Str) (st : LoopState) (h : isSep c = true) :
    tokenize (c :: rest) st = tokenize rest (spaceCase c st) := by
  have hq : ¬ (c = dquote ∨ c = squote) := by
    rcases isSep_cases h with rfl | rfl <;> decide
  have hb : ¬ c = backslash := by
    rcases isSep_cases h with rfl | rfl <;> decide
  rw [tokenize_cons, if_neg hq, if_neg hb, if_pos (isSep_cases h)]

/-! ## Separators outside a string -/

theorem tokenize_seps_idle (s rest : Str) (st : LoopState) (hi : st.instring = nul)
    (hc : st.cur = []) (hs : ∀ c ∈ s, isSep c = true) :
    tokenize (s ++ rest) st = tokenize rest st := by
  induction s with
  | nil => rfl
  | cons c s ih =>
    have h1 : isSep c = true := hs c (List.mem_cons_self c s)
    have h2 : ∀ x ∈ s, isSep x = true := fun x hx => hs x (List.mem_cons_of_mem c hx)
    rw [List.cons_append, tokenize_cons_sep c _ st h1]
    have : spaceCase c st = st := by simp [spaceCase, hi, hc]
    rw [this]
    exact ih h2

theorem LoopState.pushed_cur (st : LoopState) : st.pushed.cur = [] := by
  simp [LoopState.pushed, LoopState.cur, List.getLastD_concat]

theorem LoopState.pushed_append (st : LoopState) (w : Str) :
    st.pushed.append w =
      { st with arguments := st.arguments ++ [w], str := StrTarget.argumentsBack } := by
  simp [LoopState.pushed, LoopState.append, appendBack_concat]

theorem tokenize_separator (s rest : Str) (st : LoopState) (hi : st.instring = nul)
    (hc : st.cur ≠ []) (hs : Separator s) :
    tokenize (s ++ rest) st = tokenize rest st.pushed := by
  obtain ⟨hne, hall⟩ := hs
  cases s with
  | nil => exact absurd rfl hne
  | cons c s =>
    have h1 : isSep c = true := hall c (List.mem_cons_self c s)
    have h2 : ∀ x ∈ s, isSep x = true := fun x hx => hall x (List.mem_cons_of_mem c hx)
    rw [List.cons_append, tokenize_cons_sep c _ st h1]
    have : spaceCase c st = st.pushed := by simp [spaceCase, hi, hc, LoopState.pushed]
    rw [this]
    exact tokenize_seps_idle s rest st.pushed hi st.pushed_cur h2

/-! ## Trimming a text that starts and ends with a non-blank character -/

theorem trim_eq_self (t : Str) (hhead : ∃ c tl, t = c :: tl ∧ isTrimSpace c = false)
    (hlast : ∃ ini x, t = ini ++ [x] ∧ isTrimSpace x = false) : trim t = t := by
  obtain ⟨c, tl, rfl, hc⟩ := hhead
  obtain ⟨ini, x, hx, hxs⟩ := hlast
  have h1 : List.dropWhile isTrimSpace (c :: tl) = c :: tl := by
    simp [List.dropWhile, hc]
  unfold trim
  rw [h1, hx]
  exact List.rdropWhile_concat_neg _ _ _ (by simp [hxs])

theorem trim_of_all_space (t : Str) (h : ∀ c ∈ t, isTrimSpace c = true) : trim t = [] := by
  have h1 : List.dropWhile isTrimSpace t = [] := by
    rw [List.dropWhile_eq_nil_iff]; exact h
  simp [trim, h1]

theorem endsPlain_word (pre w : Str) (hw : PlainWord w) : EndsPlain (pre ++ w) := by
  obtain ⟨hne, hall⟩ := hw
  rcases eq_nil_or_snoc w with h | ⟨L, b, h⟩
  · exact absurd h hne
  · refine ⟨pre ++ L, b, by simp [h], hall b (by simp [h])⟩

theorem endsPlain_joinWords (rest : List (Str × Str)) (pre w0 : Str) (hw0 : PlainWord w0)
    (h : ∀ sw ∈ rest, Separator sw.1 ∧ PlainWord sw.2) :
    EndsPlain (pre ++ w0 ++ joinWords rest) := by
  induction rest generalizing pre w0 with
  | nil => simpa [joinWords] using endsPlain_word pre w0 hw0
  | cons sw rest ih =>
    have h1 := h sw (List.mem_cons_self sw rest)
    have h2 : ∀ x ∈ rest, Separator x.1 ∧ PlainWord x.2 :=
      fun x hx => h x (List.mem_cons_of_mem sw hx)
    have := ih (pre ++ w0 ++ sw.1) sw.2 h1.2 h2
    simpa [joinWords, List.append_assoc] using this

theorem trim_words (w0 : Str) (rest : List (Str × Str)) (hw0 : PlainWord w0)
    (h : ∀ sw ∈ rest, Separator sw.1 ∧ PlainWord sw.2) :
    trim (w0 ++ joinWords rest) = w0 ++ joinWords rest := by
  apply trim_eq_self
  · obtain ⟨hne, hall⟩ := hw0
    cases w0 with
    | nil => exact absurd rfl hne
    | cons c tl =>
      exact ⟨c, tl ++ joinWords rest, rfl, isPlain_not_trimSpace (hall c (List.mem_cons_self c tl))⟩
  · obtain ⟨ini, x, hx, hp⟩ := endsPlain_joinWords rest [] w0 hw0 h
    exact ⟨ini, x, by simpa using hx, isPlain_not_trimSpace hp⟩

/-! ## Words separated by blanks -/

theorem LoopState.cur_of_arguments_concat (st : LoopState) (l : List Str) (w : Str)
    (h1 : st.arguments = l ++ [w]) (h2 : st.str = StrTarget.argumentsBack) : st.cur = w := by
  simp [LoopState.cur, h1, h2, List.getLastD_concat]

theorem tokenize_joinWords (rest : List (Str × Str)) (st : LoopState)
    (hi : st.instring = nul) (hc : st.cur ≠ [])
    (h : ∀ sw ∈ rest, Separator sw.1 ∧ PlainWord sw.2) :
    tokenize (joinWords rest) st =
      { st with arguments := st.arguments ++ rest.map Prod.snd,
                str := if rest = [] then st.str else StrTarget.argumentsBack } := by
  induction rest generalizing st with
  | nil => simp [joinWords, tokenize]
  | cons sw rest ih =>
    have h1 := h sw (List.mem_cons_self sw rest)
    have h2 : ∀ x ∈ rest, Separator x.1 ∧ PlainWord x.2 :=
      fun x hx => h x (List.mem_cons_of_mem sw hx)
    have e : joinWords (sw :: rest) = sw.1 ++ (sw.2 ++ joinWords rest) := by
      simp [joinWords]
    rw [e, tokenize_separator _ _ st hi hc h1.1, tokenize_plain _ _ _ h1.2.2,
      LoopState.pushed_append]
    have hc2 : ({ st with arguments := st.arguments ++ [sw.2],
                          str := StrTarget.argumentsBack } : LoopState).cur ≠ [] := by
      rw [LoopState.cur_of_arguments_concat _ st.arguments sw.2 rfl rfl]
      exact h1.2.1
    rw [ih { st with arguments := st.arguments ++ [sw.2], str := StrTarget.argumentsBack }
      hi hc2 h2]
    simp

/-! ## Inside a quoted string -/

theorem tokenize_quoted (q : Char) (hq : q = dquote ∨ q = squote) (s rest : Str)
    (st : LoopState) (hi : st.instring = q) (hs : ∀ c ∈ s, c ≠ backslash ∧ c ≠ q) :
    tokenize (s ++ rest) st = tokenize rest (st.append s) := by
  have hqn : q ≠ nul := by rcases hq with rfl | rfl <;> decide
  induction s generalizing st with
  | nil => simp [LoopState.append_nil]
  | cons c s ih =>
    have hc := hs c (List.mem_cons_self c s)
    have hs2 : ∀ x ∈ s, x ≠ backslash ∧ x ≠ q := fun x hx => hs x (List.mem_cons_of_mem c hx)
    have key : tokenize (c :: (s ++ rest)) st = tokenize (s ++ rest) (st.append [c]) := by
      rw [tokenize_cons]
      have h1 : ¬ st.instring = nul := by rw [hi]; exact hqn
      have h2 : ¬ st.instring = c := by rw [hi]; exact fun h => hc.2 h.symm
      simp only [quoteCase, spaceCase, if_neg h1, if_neg h2, if_neg hc.1]
      split_ifs <;> rfl
    rw [List.cons_append, key, ih _ (by simpa using hi) hs2, LoopState.append_append]
    rfl

theorem tokenize_open (q : Char) (hq : q = dquote ∨ q = squote) (rest : Str) (st : LoopState)
    (hi : st.instring = nul) :
    tokenize (q :: rest) st = tokenize rest { st with instring := q } := by
  rw [tokenize_cons, if_pos hq]
  simp [quoteCase, hi]

theorem tokenize_close (q : Char) (hq : q = dquote ∨ q = squote) (rest : Str) (st : LoopState)
    (hi : st.instring = q) :
    tokenize (q :: rest) st = tokenize rest { st with instring := nul } := by
  have hqn : q ≠ nul := by rcases hq with rfl | rfl <;> decide
  rw [tokenize_cons, if_pos hq]
  simp [quoteCase, hi, hqn]

theorem tokenize_word_quoted_word (q : Char) (hq : q = dquote ∨ q = squote) (a s d : Str)
    (ha : PlainWord a) (hd : PlainWord d) (hne : s ≠ [])
    (hs : ∀ c ∈ s, c ≠ backslash ∧ c ≠ q) :
    tokenize (a ++ [space, q] ++ s ++ [q, space] ++ d) LoopState.init =
      { executable := a, arguments := [s, d], str := StrTarget.argumentsBack,
        instring := nul } := by
  have e : a ++ [space, q] ++ s ++ [q, space] ++ d
      = a ++ ([space] ++ (q :: (s ++ (q :: ([space] ++ (d ++ [])))))) := by simp
  have hsep : Separator [space] := by decide
  rw [e, tokenize_plain _ _ _ ha.2]
  rw [tokenize_separator _ _ _ (by simp [LoopState.init, LoopState.append])
    (by simpa [LoopState.init, LoopState.append, LoopState.cur] using ha.1) hsep]
  rw [tokenize_open q hq _ _ (by simp [LoopState.init, LoopState.append, LoopState.pushed])]
  rw [tokenize_quoted q hq s _ _ rfl hs]
  rw [tokenize_close q hq _ _ (by simp)]
  rw [tokenize_separator _ _ _ rfl
    (by simpa [LoopState.init, LoopState.append, LoopState.pushed, LoopState.cur, appendBack]
      using hne) hsep]
  rw [tokenize_plain _ _ _ hd.2]
  simp [tokenize, LoopState.init, LoopState.append, LoopState.pushed, appendBack]

theorem trim_word_quoted_word (q : Char) (a s d : Str) (ha : PlainWord a) (hd : PlainWord d) :
    trim (a ++ [space, q] ++ s ++ [q, space] ++ d) = a ++ [space, q] ++ s ++ [q, space] ++ d := by
  apply trim_eq_self
  · obtain ⟨hne, hall⟩ := ha
    cases a with
    | nil => exact absurd rfl hne
    | cons c tl =>
      exact ⟨c, tl ++ [space, q] ++ s ++ [q, space] ++ d, by simp,
        isPlain_not_trimSpace (hall c (List.mem_cons_self c tl))⟩
  · obtain ⟨ini, x, hx, hp⟩ := endsPlain_word (a ++ [space, q] ++ s ++ [q, space]) d hd
    exact ⟨ini, x, hx, isPlain_not_trimSpace hp⟩

theorem commandLine_config (p : Program) (cmd : Str) :
    (p.commandLine cmd).config =
      ((tokenize (trim cmd) LoopState.init).executable,
       (tokenize (trim cmd) LoopState.init).arguments) := by
  unfold Program.commandLine Program.config
  by_cases h : trim cmd = []
  · simp [h, tokenize, LoopState.init]
  · simp [h]

/-! ## The loop invariant -/

theorem appendBack_ne_nil (l : List Str) (cs : Str) (h : l ≠ []) : appendBack l cs ≠ [] := by
  rcases eq_nil_or_snoc l with h1 | ⟨L, b, h1⟩
  · exact absurd h1 h
  · rw [h1, appendBack_concat]; simp

theorem appendBack_dropLast (l : List Str) (cs : Str) :
    (appendBack l cs).dropLast = l.dropLast := by
  rcases eq_nil_or_snoc l with h1 | ⟨L, b, h1⟩
  · rw [h1]; rfl
  · rw [h1, appendBack_concat, List.dropLast_concat, List.dropLast_concat]

theorem LoopInv.init : LoopInv LoopState.init := by
  simp [LoopInv, LoopState.init]

theorem LoopInv.append {st : LoopState} (h : LoopInv st) (cs : Str) : LoopInv (st.append cs) := by
  obtain ⟨h1, h2, h3⟩ := h
  cases hs : st.str with
  | executable =>
    have e : st.append cs = { st with executable := st.executable ++ cs } := by
      simp [LoopState.append, hs]
    rw [e]
    exact ⟨fun _ => h1 hs, fun h => by simp [hs] at h, h3⟩
  | argumentsBack =>
    have e : st.append cs = { st with arguments := appendBack st.arguments cs } := by
      simp [LoopState.append, hs]
    rw [e]
    refine ⟨fun h => by simp [hs] at h, fun _ => appendBack_ne_nil _ _ (h2 hs), ?_⟩
    simpa [appendBack_dropLast] using h3

theorem LoopInv.pushed {st : LoopState} (h : LoopInv st) (hc : st.cur ≠ []) :
    LoopInv st.pushed := by
  obtain ⟨h1, h2, h3⟩ := h
  refine ⟨fun h => by simp [LoopState.pushed] at h, fun _ => by simp [LoopState.pushed], ?_⟩
  intro a ha
  have ha2 : a ∈ st.arguments := by simpa [LoopState.pushed, List.dropLast_concat] using ha
  cases hs : st.str with
  | executable => rw [h1 hs] at ha2; simp at ha2
  | argumentsBack =>
    rcases eq_nil_or_snoc st.arguments with e | ⟨L, b, e⟩
    · exact absurd e (h2 hs)
    · have hb : b ≠ [] := by
        simpa [LoopState.cur, hs, e, List.getLastD_concat] using hc
      rw [e, List.dropLast_concat] at h3
      rw [e] at ha2
      rcases List.mem_append.mp ha2 with hL | hL
      · exact h3 a hL
      · have : a = b := by simpa using hL
        rw [this]; exact hb

theorem LoopInv.quoteCase {st : LoopState} (h : LoopInv st) (c : Char) :
    LoopInv (quoteCase c st) := by
  unfold Yuni.Process.quoteCase
  split_ifs
  · exact h
  · exact h
  · exact h.append _

theorem LoopInv.escapeCase {st : LoopState} (h : LoopInv st) (c : Char) :
    LoopInv (escapeCase c st) := by
  unfold Yuni.Process.escapeCase
  split_ifs <;> first | exact h | exact h.append _

theorem LoopInv.spaceCase {st : LoopState} (h : LoopInv st) (c : Char) :
    LoopInv (spaceCase c st) := by
  unfold Yuni.Process.spaceCase
  split_ifs with h1 h2
  · exact h.pushed h2
  · exact h
  · exact h.append _

theorem LoopInv.tokenize (t : Str) (st : LoopState) (h : LoopInv st) :
    LoopInv (tokenize t st) := by
  induction t, st using tokenize.induct with
  | case1 st => simpa [Yuni.Process.tokenize] using h
  | case2 c rest st hq ih =>
    rw [tokenize_cons, if_pos hq]; exact ih (h.quoteCase c)
  | case3 st hq =>
    rw [tokenize_cons, if_neg hq]; simpa using h
  | case4 st c2 rest2 hq ih =>
    rw [tokenize_cons, if_neg hq]
    simpa using ih ((h.escapeCase c2).spaceCase c2)
  | case5 c rest st hq hb hs ih =>
    rw [tokenize_cons, if_neg hq, if_neg hb, if_pos hs]; exact ih (h.spaceCase c)
  | case6 c rest st hq hb hs ih =>
    rw [tokenize_cons, if_neg hq, if_neg hb, if_neg hs]; exact ih (h.append _)

theorem tokenize_append (t u : Str) (st : LoopState) (h : ∀ c ∈ t, c ≠ backslash) :
    tokenize (t ++ u) st = tokenize u (tokenize t st) := by
  induction t generalizing st with
  | nil => simp [tokenize]
  | cons c t ih =>
    have hc : ¬ c = backslash := h c (List.mem_cons_self c t)
    have ht : ∀ x ∈ t, x ≠ backslash := fun x hx => h x (List.mem_cons_of_mem c hx)
    rw [List.cons_append, tokenize_cons, tokenize_cons c t]
    simp only [if_neg hc]
    split_ifs <;> exact ih _ ht

theorem tokenize_trailing_backslash (t : Str) (st : LoopState) (h : ∀ c ∈ t, c ≠ backslash) :
    tokenize (t ++ [backslash]) st = tokenize t st := by
  rw [tokenize_append t _ _ h, tokenize_cons]
  have : ¬ (backslash = dquote ∨ backslash = squote) := by decide
  simp [this]

theorem mem_of_mem_trim {t : Str} {c : Char} (h : c ∈ trim t) : c ∈ t := by
  unfold trim at h
  exact (List.dropWhile_suffix isTrimSpace).subset
    ((List.rdropWhile_prefix isTrimSpace (List.dropWhile isTrimSpace t)).subset h)

/-- Trimming a text that does not end in whitespace, with a backslash appended. -/
theorem dropWhile_concat_backslash (t : Str) (h : NoTrailingSpace t) :
    List.dropWhile isTrimSpace (t ++ [backslash])
        = List.dropWhile isTrimSpace t ++ [backslash] ∧
      NoTrailingSpace (List.dropWhile isTrimSpace t) := by
  induction t with
  | nil =>
    have : isTrimSpace backslash = false := by decide
    constructor
    · simp [List.dropWhile, this]
    · intro x hx; simp at hx
  | cons c t ih =>
    by_cases hc : isTrimSpace c = true
    · have ht : NoTrailingSpace t := by
        intro x hx
        apply h x
        cases t with
        | nil => simp at hx
        | cons d t => simpa [List.getLast?_cons_cons] using hx
      have := ih ht
      simpa [List.dropWhile, hc] using this
    · have hc2 : isTrimSpace c = false := by simpa using hc
      constructor
      · simp [List.dropWhile, hc2]
      · simpa [List.dropWhile, hc2] using h

theorem rdropWhile_of_noTrailingSpace (t : Str) (h : NoTrailingSpace t) :
    List.rdropWhile isTrimSpace t = t := by
  rcases eq_nil_or_snoc t with e | ⟨L, b, e⟩
  · rw [e]; simp
  · have hb : isTrimSpace b = false := h b (by simp [e])
    rw [e]
    exact List.rdropWhile_concat_neg isTrimSpace L b (by simp [hb])

theorem trim_concat_backslash (t : Str) (h : NoTrailingSpace t) :
    trim (t ++ [backslash]) = trim t ++ [backslash] := by
  obtain ⟨h1, h2⟩ := dropWhile_concat_backslash t h
  have hb : ¬ (isTrimSpace backslash = true) := by decide
  unfold trim
  rw [h1, List.rdropWhile_concat_neg _ _ _ hb, rdropWhile_of_noTrailingSpace _ h2]

/-! ## The tokenizer of `Program::commandLine` -/

/-- C1: for a first plain word followed by any number of further plain words,
each preceded by a separator (a non-empty run of spaces and tabs),
`commandLine` stores the first word as the executable and exactly the further
words, in their order, as the arguments. This holds on every facade, a
non-running one in particular. -/
theorem commandLine_splits_words (p : Program) (w0 : Str) (rest : List (Str × Str))
    (hw0 : PlainWord w0) (h : ∀ sw ∈ rest, Separator sw.1 ∧ PlainWord sw.2) :
    (p.commandLine (w0 ++ joinWords rest)).config = (w0, rest.map Prod.snd) := by
  rw [commandLine_config, trim_words w0 rest hw0 h, tokenize_plain _ _ _ hw0.2]
  have hc : (LoopState.init.append w0).cur ≠ [] := by
    simpa [LoopState.init, LoopState.append, LoopState.cur] using hw0.1
  rw [tokenize_joinWords rest _ (by simp [LoopState.init, LoopState.append]) hc h]
  simp [LoopState.init, LoopState.append]

/-- C1, on the text `echo  hello   world`: the executable is `echo` and the
arguments are `hello` and `world`. -/
theorem commandLine_splits_words_witness :
    (Program.commandLine { pEnv := none }
        ['e', 'c', 'h', 'o', ' ', ' ', 'h', 'e', 'l', 'l', 'o', ' ', ' ', ' ',
         'w', 'o', 'r', 'l', 'd']).config
      = (['e', 'c', 'h', 'o'], [['h', 'e', 'l', 'l', 'o'], ['w', 'o', 'r', 'l', 'd']]) :=
  commandLine_splits_words { pEnv := none } ['e', 'c', 'h', 'o']
    [([' ', ' '], ['h', 'e', 'l', 'l', 'o']), ([' ', ' ', ' '], ['w', 'o', 'r', 'l', 'd'])]
    (by decide) (by decide)

/-- C2, as stated, fails when a word is empty: with `a` the word `a`, `s` the
string `b c` and `d` the empty word (which contains no whitespace, quote or
backslash), the text is trimmed to `a "b c"` and the arguments are `[b c]`,
not `[b c, d]`. -/
theorem commandLine_quoted_empty_word :
    (∀ c ∈ ['a'], isPlain c = true) ∧ (∀ c ∈ ([] : Str), isPlain c = true) ∧
    (['b', ' ', 'c'] : Str) ≠ [] ∧
    (∀ c ∈ ['b', ' ', 'c'], c ≠ backslash ∧ c ≠ dquote) ∧
    (Program.commandLine { pEnv := none }
        (['a'] ++ [space, dquote] ++ ['b', ' ', 'c'] ++ [dquote, space] ++ [])).config
      = (['a'], [['b', ' ', 'c']]) ∧
    (Program.commandLine { pEnv := none }
        (['a'] ++ [space, dquote] ++ ['b', ' ', 'c'] ++ [dquote, space] ++ [])).config
      ≠ (['a'], [['b', ' ', 'c'], []]) := by
  decide

/-- C2, amended: for non-empty plain words `a` and `d` and a non-empty string
`s` without backslash and without double quote, the text `a "s" d` gives the
executable `a` and the arguments `[s, d]`; likewise with single quotes around
an `s` without backslash and without single quote. -/
theorem commandLine_quoted (p : Program) (a s d : Str) (ha : PlainWord a) (hd : PlainWord d)
    (hne : s ≠ []) :
    ((∀ c ∈ s, c ≠ backslash ∧ c ≠ dquote) →
      (p.commandLine (a ++ [space, dquote] ++ s ++ [dquote, space] ++ d)).config
        = (a, [s, d])) ∧
    ((∀ c ∈ s, c ≠ backslash ∧ c ≠ squote) →
      (p.commandLine (a ++ [space, squote] ++ s ++ [squote, space] ++ d)).config
        = (a, [s, d])) := by
  constructor
  · intro hs
    rw [commandLine_config, trim_word_quoted_word dquote a s d ha hd,
      tokenize_word_quoted_word dquote (Or.inl rfl) a s d ha hd hne hs]
  · intro hs
    rw [commandLine_config, trim_word_quoted_word squote a s d ha hd,
      tokenize_word_quoted_word squote (Or.inr rfl) a s d ha hd hne hs]

/-- C2, amended, on the texts `a "b c" d` and `a 'b"c' d`. -/
theorem commandLine_quoted_witness :
    ((Program.commandLine { pEnv := none }
        ['a', space, dquote, 'b', ' ', 'c', dquote, space, 'd']).config
        = (['a'], [['b', ' ', 'c'], ['d']])) ∧
    ((Program.commandLine { pEnv := none }
        ['a', space, squote, 'b', dquote, 'c', squote, space, 'd']).config
        = (['a'], [['b', dquote, 'c'], ['d']])) :=
  ⟨(commandLine_quoted { pEnv := none } ['a'] ['b', ' ', 'c'] ['d']
      (by decide) (by decide) (by decide)).1 (by decide),
   (commandLine_quoted { pEnv := none } ['a'] ['b', dquote, 'c'] ['d']
      (by decide) (by decide) (by decide)).2 (by decide)⟩

/-- C3: on the text `x\ty` the code ends the token after the escape: the
executable is `x<TAB>` and `y` becomes an argument, where the claim has the
single token `x<TAB>y` and no argument. -/
theorem commandLine_escape_ends_token :
    (Program.commandLine { pEnv := none } ['x', backslash, 't', 'y']).config
      = (['x', tab], [['y']]) ∧
    (Program.commandLine { pEnv := none } ['x', backslash, 't', 'y']).config
      ≠ (['x', tab, 'y'], []) := by
  decide

/-- C4: inside a quoted string the code appends the escape letter after the
mapped output: the text `"p\nq"` gives the executable `p<LF>nq`, where the
claim has `p<LF>q`. -/
theorem commandLine_escape_in_string_repeats_letter :
    (Program.commandLine { pEnv := none }
        [dquote, 'p', backslash, 'n', 'q', dquote]).config
      = (['p', lf, 'n', 'q'], []) ∧
    (Program.commandLine { pEnv := none }
        [dquote, 'p', backslash, 'n', 'q', dquote]).config
      ≠ (['p', lf, 'q'], []) := by
  decide

/-- C6: the executable and the arguments after `commandLine(text)` are those
of tokenizing `text` on a facade without any prior configuration, whatever the
facade held before; and a text that is empty or all whitespace leaves both
empty. -/
theorem commandLine_leaves_nothing_stale (p : Program) (text : Str) :
    (p.commandLine text).config = (Program.commandLine { pEnv := none } text).config ∧
    ((∀ c ∈ text, isTrimSpace c = true) → (p.commandLine text).config = ([], [])) := by
  constructor
  · rw [commandLine_config, commandLine_config]
  · intro h
    rw [commandLine_config, trim_of_all_space text h]
    rfl

/-- C6 on a facade that holds `ls -l`, with a text of a space and a tab. -/
theorem commandLine_leaves_nothing_stale_witness :
    (∀ c ∈ [space, tab], isTrimSpace c = true) ∧
    (runningLs.commandLine [space, tab]).config = ([], []) :=
  ⟨by decide, (commandLine_leaves_nothing_stale runningLs [space, tab]).2 (by decide)⟩

/-- C7: for a text `t` without backslash that does not end in whitespace,
`commandLine` of `t` followed by one backslash gives the same executable and
arguments as `commandLine` of `t`. -/
theorem commandLine_trailing_backslash (p : Program) (t : Str)
    (hb : ∀ c ∈ t, c ≠ backslash) (hw : NoTrailingSpace t) :
    (p.commandLine (t ++ [backslash])).config = (p.commandLine t).config := by
  rw [commandLine_config, commandLine_config, trim_concat_backslash t hw,
    tokenize_trailing_backslash _ _ (fun c hc => hb c (mem_of_mem_trim hc))]

/-- C7 on the text `a "b`, followed by a backslash. -/
theorem commandLine_trailing_backslash_witness :
    (Program.commandLine { pEnv := none } (['a', ' ', dquote, 'b'] ++ [backslash])).config
      = (Program.commandLine { pEnv := none } ['a', ' ', dquote, 'b']).config :=
  commandLine_trailing_backslash { pEnv := none } ['a', ' ', dquote, 'b'] (by decide)
    (by intro x hx; cases hx; decide)

/-! ## Configuration calls during a run -/

/-- C8: on a facade whose record has `running` set, `program`, `argumentAdd`,
`argumentClear` and `durationPrecision` each return the facade unchanged, so
no field of the shared state changes (release build: the assertion is off). -/
theorem guarded_setters_noop_while_running (p : Program) (env : ProcessSharedInfo)
    (name arg : Str) (precision : DurationPrecision)
    (he : p.pEnv = some env) (hr : env.running = true) :
    p.program name = p ∧ p.argumentAdd arg = p ∧ p.argumentClear = p ∧
    p.durationPrecision precision = p := by
  cases p with
  | mk e ps =>
    simp only at he
    subst he
    simp [Program.program, Program.argumentAdd, Program.argumentClear,
      Program.durationPrecision, Program.envOrNew, hr]

/-- C8 on the running facade that holds `ls -l`. -/
theorem guarded_setters_noop_while_running_witness :
    runningLs.program ['r', 'm'] = runningLs ∧ runningLs.argumentAdd ['-', 'r'] = runningLs ∧
    runningLs.argumentClear = runningLs ∧
    runningLs.durationPrecision DurationPrecision.dpNone = runningLs :=
  guarded_setters_noop_while_running runningLs _ ['r', 'm'] ['-', 'r']
    DurationPrecision.dpNone rfl rfl

/-- C9: on the running facade that holds `ls -l`, `workingDirectory` and
`redirectToConsole` are not rejected: the stored working directory becomes
`/x` and the stored flag becomes false, while `running` is still set. -/
theorem unguarded_setters_write_while_running :
    runningLs.pEnv.map (fun e => (e.running, e.workingDirectory, e.redirectToConsole))
      = some (true, [], true) ∧
    (runningLs.workingDirectory ['/', 'x']).pEnv.map
        (fun e => (e.running, e.workingDirectory)) = some (true, ['/', 'x']) ∧
    (runningLs.redirectToConsole false).pEnv.map
        (fun e => (e.running, e.redirectToConsole)) = some (true, false) := by
  decide

/-- C10: on the running facade that holds `ls -l`, `commandLine` of the text
`rm` replaces the configuration: the executable becomes `rm` and the arguments
become empty, while `running` is still set. -/
theorem commandLine_writes_while_running :
    runningLs.config = (['l', 's'], [['-', 'l']]) ∧
    (runningLs.commandLine ['r', 'm']).config = (['r', 'm'], []) ∧
    (runningLs.commandLine ['r', 'm']).pEnv.map (fun e => e.running) = some true := by
  decide

/-! ## Execution -/

/-- C11: on a facade whose record has `running` set, `execute` returns false
and the facade with its whole shared record is unchanged, for every timeout
and whatever the spawn primitive would answer (it is not consulted). -/
theorem execute_while_running_fails (p : Program) (env : ProcessSharedInfo) (timeout : Nat)
    (os : SpawnResult) (clock : Clock) (he : p.pEnv = some env) (hr : env.running = true) :
    p.execute timeout os clock = (false, p) := by
  cases p with
  | mk e ps =>
    simp only at he
    subst he
    simp [Program.execute, Program.envOrNew, hr]

/-- C11 on the running facade that holds `ls -l`. -/
theorem execute_while_running_fails_witness :
    runningLs.execute 5 (SpawnResult.spawned 42 7) (Clock.mk 100 100000) = (false, runningLs) :=
  execute_while_running_fails runningLs _ 5 (SpawnResult.spawned 42 7) (Clock.mk 100 100000)
    rfl rfl

/-- C12: on a facade that is not running and has an empty executable (a
facade without a record included), `execute` returns true; afterwards
`running` is false, the monitor reference is the one stored before (none is
created), and the result is the same whatever the spawn primitive would
answer (it is not consulted). -/
theorem execute_empty_command (p : Program) (timeout : Nat) (os : SpawnResult) (clock : Clock)
    (hr : p.envOrNew.running = false) (hx : p.envOrNew.executable = []) :
    p.execute timeout os clock =
      (true, { p with pEnv := some { p.envOrNew with
                  running := false, processID := 0, processInput := -1,
                  exitstatus := -128, timeout := timeout, duration := 0 } }) ∧
    (p.execute timeout os clock).2.running = false ∧
    (p.execute timeout os clock).2.thread = p.envOrNew.thread ∧
    (∀ (os2 : SpawnResult) (clock2 : Clock),
      p.execute timeout os2 clock2 = p.execute timeout os clock) := by
  have h : ∀ (o : SpawnResult) (c : Clock), p.execute timeout o c =
      (true, { p with pEnv := some { p.envOrNew with
                  running := false, processID := 0, processInput := -1,
                  exitstatus := -128, timeout := timeout, duration := 0 } }) := by
    intro o c
    simp [Program.execute, hr, hx]
  refine ⟨h os clock, ?_, ?_, ?_⟩
  · rw [h]; rfl
  · rw [h]; rfl
  · intro os2 clock2; rw [h, h]

/-- C12 on a fresh facade given the empty command line. -/
theorem execute_empty_command_witness :
    (emptyCommand.execute 0 SpawnResult.failed (Clock.mk 0 0)).1 = true ∧
    (emptyCommand.execute 0 SpawnResult.failed (Clock.mk 0 0)).2.running = false ∧
    (emptyCommand.execute 0 SpawnResult.failed (Clock.mk 0 0)).2.thread = none :=
  have h := execute_empty_command emptyCommand 0 SpawnResult.failed (Clock.mk 0 0) rfl rfl
  ⟨by rw [h.1], h.2.1, h.2.2.1⟩

/-- C13, as stated, fails: on a fresh facade, after `commandLine` of the empty
text and an `execute` that returns true, `wait` returns the exit status -128
(with the duration 0), not 0. -/
theorem empty_command_wait_not_zero :
    (emptyCommand.execute 0 SpawnResult.failed (Clock.mk 0 0)).1 = true ∧
    ((emptyCommand.execute 0 SpawnResult.failed (Clock.mk 0 0)).2.wait
        (ChildExit.mk false 0) (Clock.mk 0 0)).1 = (-128, 0) ∧
    ((emptyCommand.execute 0 SpawnResult.failed (Clock.mk 0 0)).2.wait
        (ChildExit.mk false 0) (Clock.mk 0 0)).1 ≠ (0, 0) := by
  decide

/-- C13, amended: on a fresh facade, after `commandLine` of the empty text,
`execute` returns true and has reset the exit status to -128 and the duration
to 0; `wait` then returns the exit status -128 and the duration 0, changes
nothing and notifies no sink. -/
theorem empty_command_wait_returns_reset_status (sink : Option Stream) (timeout : Nat)
    (os : SpawnResult) (clock : Clock) (exit : ChildExit) (clock2 : Clock) :
    ((Program.commandLine { pEnv := none, pStream := sink } []).execute timeout os clock).1
      = true ∧
    (((Program.commandLine { pEnv := none, pStream := sink } []).execute timeout os clock).2.wait
      exit clock2)
      = ((-128, 0),
         ((Program.commandLine { pEnv := none, pStream := sink } []).execute timeout os clock).2,
         []) := by
  have hc : Program.commandLine { pEnv := none, pStream := sink } []
      = { pEnv := some ProcessSharedInfo.new, pStream := sink } := by
    simp [Program.commandLine, trim, Program.envOrNew, ProcessSharedInfo.new]
  rw [hc]
  simp [Program.execute, Program.envOrNew, ProcessSharedInfo.new, Program.wait]

/-- C14: on a facade that is not running and has a non-empty executable (a
facade without a record cannot be one), when the spawn fails `execute` returns
false, `running` is false afterwards, and the monitor it created has not been
started. -/
theorem execute_spawn_failure_reported (p : Program) (timeout : Nat) (clock : Clock)
    (hr : p.envOrNew.running = false) (hx : p.envOrNew.executable ≠ []) :
    (p.execute timeout SpawnResult.failed clock).1 = false ∧
    (p.execute timeout SpawnResult.failed clock).2.running = false ∧
    (p.execute timeout SpawnResult.failed clock).2.thread.map (fun m => m.started)
      = some false := by
  simp [Program.execute, Program.running, Program.thread, ThreadMonitor.spawnProcess,
    ThreadMonitor.new, hr, hx]

/-- C14 on the fresh facade given the command line `/no`. -/
theorem execute_spawn_failure_reported_witness :
    (noSuchBinary.execute 0 SpawnResult.failed (Clock.mk 0 0)).1 = false ∧
    (noSuchBinary.execute 0 SpawnResult.failed (Clock.mk 0 0)).2.running = false ∧
    (noSuchBinary.execute 0 SpawnResult.failed (Clock.mk 0 0)).2.thread.map
        (fun m => m.started) = some false :=
  execute_spawn_failure_reported noSuchBinary 0 (Clock.mk 0 0) rfl (by decide)

/-! ## Waiting -/

/-- C15: on a facade that is not running, `wait` returns the stored exit
status and duration, leaves the facade with its whole shared record unchanged
and notifies no sink; hence a second `wait` returns the same pair. -/
theorem wait_idle_idempotent (p : Program) (exit exit2 : ChildExit) (clock clock2 : Clock)
    (hr : p.running = false) :
    p.wait exit clock = (p.status, p, []) ∧
    ((p.wait exit clock).2.1.wait exit2 clock2).1 = (p.wait exit clock).1 := by
  have h : ∀ (e : ChildExit) (c : Clock), p.wait e c = (p.status, p, []) := by
    intro e c
    cases hp : p.pEnv with
    | none => simp [Program.wait, Program.status, hp]
    | some env =>
      have hr2 : env.running = false := by simpa [Program.running, hp] using hr
      simp [Program.wait, Program.status, hp, hr2]
  refine ⟨h exit clock, ?_⟩
  rw [h exit clock]
  simp only
  rw [h exit2 clock2]

/-- C15 on the facade left by `execute` of the empty command. -/
theorem wait_idle_idempotent_witness :
    (emptyCommand.execute 0 SpawnResult.failed (Clock.mk 0 0)).2.running = false ∧
    ((emptyCommand.execute 0 SpawnResult.failed (Clock.mk 0 0)).2.wait
        (ChildExit.mk false 0) (Clock.mk 1 1000)).1 = (-128, 0) ∧
    (((emptyCommand.execute 0 SpawnResult.failed (Clock.mk 0 0)).2.wait
        (ChildExit.mk false 0) (Clock.mk 1 1000)).2.1.wait
        (ChildExit.mk true 9) (Clock.mk 2 2000)).1 = (-128, 0) :=
  have h := wait_idle_idempotent (emptyCommand.execute 0 SpawnResult.failed (Clock.mk 0 0)).2
    (ChildExit.mk false 0) (ChildExit.mk true 9) (Clock.mk 1 1000) (Clock.mk 2 2000) rfl
  ⟨rfl, by rw [h.1]; rfl, by rw [h.2, h.1]; rfl⟩

theorem zeroStatus_new : ZeroStatus ProcessSharedInfo.new := by
  simp [ZeroStatus, ProcessSharedInfo.new]

theorem neverExecuted_zeroStatus (p : Program) (h : NeverExecuted p) :
    ∀ env, p.pEnv = some env → ZeroStatus env := by
  induction h with
  | fresh sink => intro env he; simp at he
  | @commandLine p cmd _ ih =>
    intro env he
    have h0 : ZeroStatus p.envOrNew := by
      cases hp : p.pEnv with
      | none => simpa [Program.envOrNew, hp] using zeroStatus_new
      | some e => simpa [Program.envOrNew, hp] using ih e hp
    unfold Program.commandLine at he
    by_cases ht : trim cmd = []
    · simp [ht] at he; subst he; exact ⟨by simp [h0.1], by simp [h0.2.1], by simp [h0.2.2]⟩
    · simp [ht] at he; subst he; exact ⟨by simp [h0.1], by simp [h0.2.1], by simp [h0.2.2]⟩
  | @workingDirectory p d _ ih =>
    intro env he
    have h0 : ZeroStatus p.envOrNew := by
      cases hp : p.pEnv with
      | none => simpa [Program.envOrNew, hp] using zeroStatus_new
      | some e => simpa [Program.envOrNew, hp] using ih e hp
    simp [Program.workingDirectory] at he
    subst he; exact ⟨by simp [h0.1], by simp [h0.2.1], by simp [h0.2.2]⟩
  | @redirectToConsole p f _ ih =>
    intro env he
    cases hp : p.pEnv with
    | none =>
      cases f with
      | true => simp [Program.redirectToConsole, hp] at he
      | false =>
        simp [Program.redirectToConsole, hp] at he
        subst he; simp [ZeroStatus, ProcessSharedInfo.new]
    | some e =>
      simp [Program.redirectToConsole, hp] at he
      subst he; exact ⟨by simp [(ih e hp).1], by simp [(ih e hp).2.1], by simp [(ih e hp).2.2]⟩
  | @program p prgm _ ih =>
    intro env he
    have h0 : ZeroStatus p.envOrNew := by
      cases hp : p.pEnv with
      | none => simpa [Program.envOrNew, hp] using zeroStatus_new
      | some e => simpa [Program.envOrNew, hp] using ih e hp
    simp [Program.program, h0.1] at he
    subst he; exact ⟨by simp [h0.1], by simp [h0.2.1], by simp [h0.2.2]⟩
  | @argumentClear p _ ih =>
    intro env he
    cases hp : p.pEnv with
    | none => simp [Program.argumentClear, hp] at he
    | some e =>
      have h0 := ih e hp
      simp [Program.argumentClear, hp, h0.1] at he
      subst he; exact ⟨by simp [h0.1], by simp [h0.2.1], by simp [h0.2.2]⟩
  | @argumentAdd p arg _ ih =>
    intro env he
    have h0 : ZeroStatus p.envOrNew := by
      cases hp : p.pEnv with
      | none => simpa [Program.envOrNew, hp] using zeroStatus_new
      | some e => simpa [Program.envOrNew, hp] using ih e hp
    simp [Program.argumentAdd, h0.1] at he
    subst he; exact ⟨by simp [h0.1], by simp [h0.2.1], by simp [h0.2.2]⟩
  | @durationPrecision p pr _ ih =>
    intro env he
    have h0 : ZeroStatus p.envOrNew := by
      cases hp : p.pEnv with
      | none => simpa [Program.envOrNew, hp] using zeroStatus_new
      | some e => simpa [Program.envOrNew, hp] using ih e hp
    simp [Program.durationPrecision, h0.1] at he
    subst he; exact ⟨by simp [h0.1], by simp [h0.2.1], by simp [h0.2.2]⟩

/-- C16: on a facade on which `execute` was never called (a fresh facade, or
one that only went through configuration operations), `wait` returns the exit
status 0 and the duration 0, leaves the facade as it is (no record is
allocated, none is modified) and notifies no sink. -/
theorem wait_never_executed (p : Program) (exit : ChildExit) (clock : Clock)
    (h : NeverExecuted p) : p.wait exit clock = ((0, 0), p, []) := by
  cases hp : p.pEnv with
  | none => simp [Program.wait, hp]
  | some env =>
    obtain ⟨h1, h2, h3⟩ := neverExecuted_zeroStatus p h env hp
    simp [Program.wait, hp, h1, h2, h3]

/-- C16 on a fresh facade, which has no record, and on a facade that was only
given a program name. -/
theorem wait_never_executed_witness :
    (Program.wait { pEnv := none } (ChildExit.mk true 9) (Clock.mk 5 5000)
      = ((0, 0), { pEnv := none }, [])) ∧
    ((Program.program { pEnv := none } ['l', 's']).wait (ChildExit.mk true 9) (Clock.mk 5 5000)
      = ((0, 0), Program.program { pEnv := none } ['l', 's'], [])) :=
  ⟨wait_never_executed { pEnv := none } (ChildExit.mk true 9) (Clock.mk 5 5000)
      (NeverExecuted.fresh none),
   wait_never_executed (Program.program { pEnv := none } ['l', 's']) (ChildExit.mk true 9)
      (Clock.mk 5 5000) (NeverExecuted.program _ (NeverExecuted.fresh none))⟩

/-! ## The terminal update of the monitor -/

theorem theProcessHasStopped_idle (m : ThreadMonitor) (clock : Clock) (killed : Bool)
    (exitstatus : Int) (env : ProcessSharedInfo) (hr : env.running = false) :
    (m.theProcessHasStopped clock killed exitstatus env).2 = (env, []) := by
  simp [ThreadMonitor.theProcessHasStopped, hr]

theorem theProcessHasStopped_running_false (m : ThreadMonitor) (clock : Clock) (killed : Bool)
    (exitstatus : Int) (env : ProcessSharedInfo) :
    (m.theProcessHasStopped clock killed exitstatus env).2.1.running = false := by
  unfold ThreadMonitor.theProcessHasStopped
  cases hr : env.running with
  | false => simp [hr]
  | true =>
    simp only [Bool.true_eq_false, if_false]
    split <;> rfl

theorem statusInv_theProcessHasStopped (m : ThreadMonitor) (clock : Clock) (killed : Bool)
    (exitstatus : Int) (env : ProcessSharedInfo) :
    StatusInv (m.theProcessHasStopped clock killed exitstatus env).2.1 := by
  intro h
  rw [theProcessHasStopped_running_false] at h
  exact absurd h (by simp)

theorem statusInv_new : StatusInv ProcessSharedInfo.new := by
  intro h; simp [ProcessSharedInfo.new] at h

theorem statusInv_of_eq {env env2 : ProcessSharedInfo} (h : StatusInv env)
    (h1 : env2.running = env.running) (h2 : env2.exitstatus = env.exitstatus)
    (h3 : env2.duration = env.duration) : StatusInv env2 := by
  intro hr
  rw [h1] at hr
  rw [h2, h3]
  exact h hr

theorem statusInv_envOrNew (p : Program) (ih : ∀ env, p.pEnv = some env → StatusInv env) :
    StatusInv p.envOrNew := by
  cases hp : p.pEnv with
  | none => simpa [Program.envOrNew, hp] using statusInv_new
  | some e => simpa [Program.envOrNew, hp] using ih e hp

theorem statusInv_execute (p : Program) (timeout : Nat) (os : SpawnResult) (clock : Clock)
    (ih : ∀ env, p.pEnv = some env → StatusInv env) :
    ∀ env, (p.execute timeout os clock).2.pEnv = some env → StatusInv env := by
  intro env he
  have h0 := statusInv_envOrNew p ih
  unfold Program.execute at he
  cases hr : p.envOrNew.running with
  | true =>
    simp [hr] at he
    subst he; exact h0
  | false =>
    by_cases hx : p.envOrNew.executable = []
    · simp [hr, hx] at he
      subst he
      intro h; simp at h
    · cases os with
      | failed =>
        simp [hr, hx, ThreadMonitor.spawnProcess] at he
        subst he
        intro h; simp at h
      | spawned pid input =>
        simp [hr, hx, ThreadMonitor.spawnProcess] at he
        subst he
        intro _; simp

theorem join_started (m : ThreadMonitor) (exit : ChildExit) (clock : Clock)
    (env : ProcessSharedInfo) (hs : m.started = true) :
    (m.join exit clock env).2.1.running = false := by
  unfold ThreadMonitor.join
  rw [if_pos hs]
  unfold ThreadMonitor.onExecute
  exact theProcessHasStopped_running_false _ _ _ _ _

theorem join_not_started (m : ThreadMonitor) (exit : ChildExit) (clock : Clock)
    (env : ProcessSharedInfo) (hs : m.started = false) :
    m.join exit clock env = (m, env, []) := by
  simp [ThreadMonitor.join, hs]

theorem statusInv_join (m : ThreadMonitor) (exit : ChildExit) (clock : Clock)
    (env : ProcessSharedInfo) (h0 : StatusInv env) :
    StatusInv (m.join exit clock env).2.1 := by
  cases hs : m.started with
  | false => rw [join_not_started m exit clock env hs]; exact h0
  | true =>
    intro h
    rw [join_started m exit clock env hs] at h
    exact absurd h (by simp)

theorem statusInv_wait (p : Program) (exit : ChildExit) (clock : Clock)
    (ih : ∀ env, p.pEnv = some env → StatusInv env) :
    ∀ env, (p.wait exit clock).2.1.pEnv = some env → StatusInv env := by
  intro env he
  cases hp : p.pEnv with
  | none => simp [Program.wait, hp] at he
  | some e =>
    have h0 := ih e hp
    cases hr : e.running with
    | false =>
      simp [Program.wait, hp, hr] at he
      subst he; exact h0
    | true =>
      cases ht : e.thread with
      | none =>
        simp [Program.wait, hp, hr, ht] at he
        subst he; exact h0
      | some m =>
        simp only [Program.wait, hp, hr, ht, Option.some.injEq] at he
        subst he
        exact statusInv_of_eq (statusInv_join m exit clock e h0) rfl rfl rfl

theorem reachable_statusInv (p : Program) (h : Reachable p) :
    ∀ env, p.pEnv = some env → StatusInv env := by
  induction h with
  | fresh sink => intro env he; simp at he
  | @commandLine p cmd _ ih =>
    intro env he
    have h0 := statusInv_envOrNew p ih
    unfold Program.commandLine at he
    by_cases ht : trim cmd = []
    · simp [ht] at he; subst he; exact statusInv_of_eq h0 rfl rfl rfl
    · simp [ht] at he; subst he; exact statusInv_of_eq h0 rfl rfl rfl
  | @workingDirectory p d _ ih =>
    intro env he
    have h0 := statusInv_envOrNew p ih
    simp [Program.workingDirectory] at he
    subst he; exact statusInv_of_eq h0 rfl rfl rfl
  | @redirectToConsole p f _ ih =>
    intro env he
    cases hp : p.pEnv with
    | none =>
      cases f with
      | true => simp [Program.redirectToConsole, hp] at he
      | false =>
        simp [Program.redirectToConsole, hp] at he
        subst he; exact statusInv_of_eq statusInv_new rfl rfl rfl
    | some e =>
      simp [Program.redirectToConsole, hp] at he
      subst he; exact statusInv_of_eq (ih e hp) rfl rfl rfl
  | @program p prgm _ ih =>
    intro env he
    have h0 := statusInv_envOrNew p ih
    unfold Program.program at he
    cases hr : p.envOrNew.running with
    | true => simp [hr] at he; subst he; exact h0
    | false => simp [hr] at he; subst he; intro h; simp at h
  | @argumentClear p _ ih =>
    intro env he
    cases hp : p.pEnv with
    | none => simp [Program.argumentClear, hp] at he
    | some e =>
      have h0 := ih e hp
      cases hr : e.running with
      | true => simp [Program.argumentClear, hp, hr] at he; subst he; exact h0
      | false =>
        simp [Program.argumentClear, hp, hr] at he
        subst he; intro h; simp at h
  | @argumentAdd p arg _ ih =>
    intro env he
    have h0 := statusInv_envOrNew p ih
    unfold Program.argumentAdd at he
    cases hr : p.envOrNew.running with
    | true => simp [hr] at he; subst he; exact h0
    | false => simp [hr] at he; subst he; intro h; simp at h
  | @durationPrecision p pr _ ih =>
    intro env he
    have h0 := statusInv_envOrNew p ih
    unfold Program.durationPrecision at he
    cases hr : p.envOrNew.running with
    | true => simp [hr] at he; subst he; exact h0
    | false => simp [hr] at he; subst he; intro h; simp at h
  | @execute p timeout os clock _ ih => exact statusInv_execute p timeout os clock ih
  | @wait p exit clock _ ih => exact statusInv_wait p exit clock ih
  | @monitorStopped p m clock killed exitstatus _ ih =>
    intro env he
    cases hp : p.pEnv with
    | none => simp [Program.monitorStopped, hp] at he
    | some e =>
      simp [Program.monitorStopped, hp] at he
      subst he
      exact statusInv_theProcessHasStopped m clock killed exitstatus e

/-- C17: in every state reachable from a fresh facade through the
configuration operations, `execute`, `wait` and the terminal update of a
monitor, a record with `running` set has the exit status -128 and the duration
0, the values `execute` reset them to. -/
theorem reachable_running_status (p : Program) (env : ProcessSharedInfo) (h : Reachable p)
    (he : p.pEnv = some env) (hr : env.running = true) :
    env.exitstatus = -128 ∧ env.duration = 0 :=
  reachable_statusInv p h env he hr

/-- C17 on the facade after `program(ls)` and a successful `execute`. -/
theorem reachable_running_status_witness :
    spawnedLs.pEnv = some spawnedLsEnv ∧ spawnedLsEnv.running = true ∧
    (spawnedLsEnv.exitstatus = -128 ∧ spawnedLsEnv.duration = 0) :=
  ⟨rfl, rfl,
   reachable_running_status spawnedLs spawnedLsEnv
    (Reachable.execute 0 (SpawnResult.spawned 42 7) (Clock.mk 100 100000)
      (Reachable.program ['l', 's'] (Reachable.fresh none)))
    rfl rfl⟩

theorem wrapSint64_of_fits (x : Int) (h1 : -9223372036854775808 ≤ x)
    (h2 : x < 9223372036854775808) : wrapSint64 x = x := by
  unfold wrapSint64
  omega

/-- C19, as stated, fails: with `running` set, the start time -1 the monitor
is constructed with and the largest `sint64` as the end time (not zero, not
before the start), the difference 2^63 does not fit the 64-bit duration: the
duration published is -2^63, which is negative and is not `e - s`. -/
theorem theProcessHasStopped_duration_wraps :
    spawnedLsEnv.running = true ∧ overflowMonitor.pStartTime = -1 ∧
    overflowMonitor.pEndTime = 9223372036854775807 ∧
    (overflowMonitor.theProcessHasStopped (Clock.mk 0 0) false 0 spawnedLsEnv).2.1.duration
      = -9223372036854775808 ∧
    (overflowMonitor.theProcessHasStopped (Clock.mk 0 0) false 0 spawnedLsEnv).2.1.duration
      ≠ overflowMonitor.pEndTime - overflowMonitor.pStartTime := by
  decide

/-- C19, amended: on a record with `running` set, the terminal update of a
monitor with start time `pStartTime` and a non-zero end time `pEndTime` whose
difference fits the 64-bit duration (it is below 2^63) sets `running` to
false, the input handle to -1, the exit status to the one given and the
duration to the elapsed time (never negative), and leaves every other field
of the record as it was; the sink of the monitor, when it has one, receives
exactly one `onStop` with the kill flag, the exit status and that duration,
and the monitor holds no sink afterwards. -/
theorem theProcessHasStopped_publishes (m : ThreadMonitor) (clock : Clock) (killed : Bool)
    (exitstatus : Int) (env : ProcessSharedInfo) (hr : env.running = true)
    (he : m.pEndTime ≠ 0) (hfit : m.pEndTime - m.pStartTime < 9223372036854775808) :
    (m.theProcessHasStopped clock killed exitstatus env).2.1 =
      { env with running := false, processInput := -1, exitstatus := exitstatus,
                 duration := elapsed m.pStartTime m.pEndTime } ∧
    0 ≤ elapsed m.pStartTime m.pEndTime ∧
    (m.theProcessHasStopped clock killed exitstatus env).1.stream = none ∧
    (m.theProcessHasStopped clock killed exitstatus env).2.2 =
      (match m.stream with
       | some s => [OnStop.mk s killed exitstatus (elapsed m.pStartTime m.pEndTime)]
       | none => []) := by
  have hd : (if m.pEndTime ≥ m.pStartTime then wrapSint64 (m.pEndTime - m.pStartTime) else 0)
      = elapsed m.pStartTime m.pEndTime := by
    unfold elapsed
    split_ifs with hle
    · exact wrapSint64_of_fits _ (by omega) hfit
    · rfl
  refine ⟨?_, ?_, ?_, ?_⟩
  · unfold ThreadMonitor.theProcessHasStopped
    simp only [if_neg he, hr, Bool.true_eq_false, if_false, hd]
    cases m.stream <;> rfl
  · unfold elapsed
    split_ifs with hle
    · exact Int.sub_nonneg_of_le hle
    · exact le_refl 0
  · unfold ThreadMonitor.theProcessHasStopped
    simp only [if_neg he, hr, Bool.true_eq_false, if_false]
    cases hs : m.stream <;> simp [hs]
  · unfold ThreadMonitor.theProcessHasStopped
    simp only [if_neg he, hr, Bool.true_eq_false, if_false, hd]
    cases hs : m.stream <;> simp [hs]

/-- C19, amended, on the record of the running `ls` and a monitor with a sink,
started at 100 and ended at 104: the duration published and reported is 4. -/
theorem theProcessHasStopped_publishes_witness :
    (endedMonitor.theProcessHasStopped (Clock.mk 200 200000) true 9 spawnedLsEnv).2.1 =
      { spawnedLsEnv with running := false, processInput := -1, exitstatus := 9,
                          duration := 4 } ∧
    (endedMonitor.theProcessHasStopped (Clock.mk 200 200000) true 9 spawnedLsEnv).1.stream
      = none ∧
    (endedMonitor.theProcessHasStopped (Clock.mk 200 200000) true 9 spawnedLsEnv).2.2 =
      [OnStop.mk 1 true 9 4] :=
  have h := theProcessHasStopped_publishes endedMonitor (Clock.mk 200 200000) true 9
    spawnedLsEnv rfl (by decide) (by decide)
  ⟨h.1, h.2.2.1, h.2.2.2⟩

/-- C20: on a record that is not `running`, the terminal update of a monitor
leaves the shared record exactly as it was and notifies no sink, for every
kill flag, exit status, monitor (hence all timestamps) and clock. -/
theorem theProcessHasStopped_noop_when_idle (m : ThreadMonitor) (clock : Clock) (killed : Bool)
    (exitstatus : Int) (env : ProcessSharedInfo) (hr : env.running = false) :
    (m.theProcessHasStopped clock killed exitstatus env).2.1 = env ∧
    (m.theProcessHasStopped clock killed exitstatus env).2.2 = [] := by
  rw [theProcessHasStopped_idle m clock killed exitstatus env hr]
  exact ⟨rfl, rfl⟩

/-- C20 on a new record, which is idle. -/
theorem theProcessHasStopped_noop_when_idle_witness :
    (endedMonitor.theProcessHasStopped (Clock.mk 200 200000) true 9
        ProcessSharedInfo.new).2.1 = ProcessSharedInfo.new ∧
    (endedMonitor.theProcessHasStopped (Clock.mk 200 200000) true 9
        ProcessSharedInfo.new).2.2 = [] :=
  theProcessHasStopped_noop_when_idle endedMonitor (Clock.mk 200 200000) true 9
    ProcessSharedInfo.new rfl

/-! ## The monitor reference -/

theorem monitorStopped_thread (p : Program) (m : ThreadMonitor) (clock : Clock) (killed : Bool)
    (exitstatus : Int) : (p.monitorStopped m clock killed exitstatus).thread = p.thread := by
  cases hp : p.pEnv with
  | none => simp [Program.monitorStopped, Program.thread, hp]
  | some e =>
    simp only [Program.monitorStopped, Program.thread, hp,
      ThreadMonitor.theProcessHasStopped]
    cases hr : e.running with
    | false => simp
    | true =>
      simp only [Bool.true_eq_false, if_false]
      split <;> rfl

/-- C21, as stated, fails: `finishedLs` is reachable (a successful `execute`,
then the terminal update of the monitor), it is not running, and its record
still references the monitor. -/
theorem monitor_kept_when_idle :
    Reachable finishedLs ∧ finishedLs.running = false ∧ finishedLs.thread.isSome = true :=
  ⟨Reachable.monitorStopped _ (Clock.mk 104 104000) false 0
      (Reachable.execute 0 (SpawnResult.spawned 42 7) (Clock.mk 100 100000)
        (Reachable.program ['l', 's'] (Reachable.fresh none))),
   by decide, by decide⟩

/-- C21, amended: when the record is `running` and references a monitor,
`wait` joins the monitor and the reference is null once `wait` has returned;
the terminal update of a monitor never changes the reference, so it stays set
between that update and the `wait`. -/
theorem wait_discards_joined_monitor (p : Program) (env : ProcessSharedInfo)
    (m : ThreadMonitor) (exit : ChildExit) (clock : Clock)
    (he : p.pEnv = some env) (hr : env.running = true) (ht : env.thread = some m) :
    (p.wait exit clock).2.1.thread = none ∧
    (∀ (m2 : ThreadMonitor) (clock2 : Clock) (killed : Bool) (exitstatus : Int),
      (p.monitorStopped m2 clock2 killed exitstatus).thread = p.thread) := by
  refine ⟨?_, fun m2 clock2 killed exitstatus => monitorStopped_thread p m2 clock2 killed exitstatus⟩
  simp [Program.wait, Program.thread, he, hr, ht]

/-- C21, amended, on `spawnedLs`, which is running and references its monitor. -/
theorem wait_discards_joined_monitor_witness :
    spawnedLs.pEnv = some spawnedLsEnv ∧ spawnedLsEnv.running = true ∧
    spawnedLsEnv.thread.isSome = true ∧
    (spawnedLs.wait (ChildExit.mk false 0) (Clock.mk 104 104000)).2.1.thread = none :=
  ⟨rfl, rfl, rfl,
   (wait_discards_joined_monitor spawnedLs spawnedLsEnv _ (ChildExit.mk false 0)
      (Clock.mk 104 104000) rfl rfl rfl).1⟩

/-! ## Dispatching the execution -/

theorem execute_of_allocated (p : Program) (timeout : Nat) (os : SpawnResult) (clock : Clock) :
    Program.execute { p with pEnv := some p.envOrNew } timeout os clock
      = p.execute timeout os clock := by
  simp [Program.execute, Program.envOrNew]

theorem execute_pStream (p : Program) (timeout : Nat) (os : SpawnResult) (clock : Clock) :
    (p.execute timeout os clock).2.pStream = p.pStream := by
  unfold Program.execute
  simp only
  split_ifs <;> rfl

/-- C22: with a valid signal and a dispatcher that invokes the callback it is
given exactly once, `dispatchExecution` returns, and returns exactly the flag
that `execute` returns on the same state, and it leaves the facade as
`execute` leaves it; with a signal that cannot be initialised it returns false
whatever the dispatcher is, which is not called (only the record has been
allocated if there was none). -/
theorem dispatchExecution_runs_execute (p : Program) (timeout : Nat) (os : SpawnResult)
    (clock : Clock) (dispatcher : Dispatcher)
    (hd : ∀ callback h, dispatcher callback h = (callback h).2) :
    p.dispatchExecution true dispatcher timeout os clock = some (p.execute timeout os clock) ∧
    (∀ d : Dispatcher, p.dispatchExecution false d timeout os clock
      = some (false, { p with pEnv := some p.envOrNew })) := by
  constructor
  · have h1 := execute_of_allocated p timeout os clock
    have h2 := execute_pStream p timeout os clock
    simp only [Program.dispatchExecution, hd, ExecutionHelper.perform, h1, Bool.true_eq_false,
      if_false, if_true]
    cases hx : p.execute timeout os clock with
    | mk b q =>
      rw [hx] at h2
      cases q with
      | mk e ps =>
        simp only at h2
        subst h2
        rfl
  · intro d
    simp [Program.dispatchExecution]

/-- C22 on the facade given the command line `/no`, with a spawn that fails,
and on a fresh facade with an invalid signal. -/
theorem dispatchExecution_runs_execute_witness :
    (noSuchBinary.dispatchExecution true Dispatcher.once 0 SpawnResult.failed (Clock.mk 0 0)
      = some (noSuchBinary.execute 0 SpawnResult.failed (Clock.mk 0 0))) ∧
    (Program.dispatchExecution { pEnv := none } false Dispatcher.once 0
        (SpawnResult.spawned 42 7) (Clock.mk 0 0)
      = some (false, { pEnv := some ProcessSharedInfo.new })) :=
  have h := dispatchExecution_runs_execute noSuchBinary 0 SpawnResult.failed (Clock.mk 0 0)
    Dispatcher.once (fun _ _ => rfl)
  have h2 := dispatchExecution_runs_execute { pEnv := none } 0 (SpawnResult.spawned 42 7)
    (Clock.mk 0 0) Dispatcher.once (fun _ _ => rfl)
  ⟨h.1, h2.2 Dispatcher.once⟩

/-! ## Setters and getters -/

theorem envOrNew_running_of_idle (p : Program) (hr : p.running = false) :
    p.envOrNew.running = false := by
  cases hp : p.pEnv with
  | none => simp [Program.envOrNew, hp, ProcessSharedInfo.new]
  | some e => simpa [Program.envOrNew, Program.running, hp] using hr

/-- C23: on a facade that is not running, with or without a record, each of
`program`, `workingDirectory`, `durationPrecision` and `redirectToConsole`
followed by its getter returns the value set, and the setter yields the record
it found (a new one when there was none) with only its own field replaced;
`redirectToConsole(true)` on a facade without a record changes nothing and
allocates nothing. -/
theorem setter_getter_round_trip (p : Program) (x d : Str) (pr : DurationPrecision)
    (f : Bool) (hr : p.running = false) :
    ((p.program x).getProgram = x ∧
      p.program x = { p with pEnv := some { p.envOrNew with executable := x } }) ∧
    ((p.workingDirectory d).getWorkingDirectory = d ∧
      p.workingDirectory d = { p with pEnv := some { p.envOrNew with workingDirectory := d } }) ∧
    ((p.durationPrecision pr).getDurationPrecision = pr ∧
      p.durationPrecision pr
        = { p with pEnv := some { p.envOrNew with durationPrecision := pr } }) ∧
    ((p.redirectToConsole f).getRedirectToConsole = f ∧
      (p.pEnv = none → f = true → p.redirectToConsole f = p) ∧
      (p.pEnv ≠ none ∨ f = false → p.redirectToConsole f
        = { p with pEnv := some { p.envOrNew with redirectToConsole := f } })) := by
  have h0 := envOrNew_running_of_idle p hr
  refine ⟨⟨?_, ?_⟩, ⟨?_, ?_⟩, ⟨?_, ?_⟩, ⟨?_, ?_, ?_⟩⟩
  · simp [Program.program, Program.getProgram, h0]
  · simp [Program.program, h0]
  · simp [Program.workingDirectory, Program.getWorkingDirectory]
  · simp [Program.workingDirectory]
  · simp [Program.durationPrecision, Program.getDurationPrecision, h0]
  · simp [Program.durationPrecision, h0]
  · cases hp : p.pEnv with
    | none => cases f <;> simp [Program.redirectToConsole, Program.getRedirectToConsole, hp]
    | some e => simp [Program.redirectToConsole, Program.getRedirectToConsole, hp]
  · intro hp hf
    simp [Program.redirectToConsole, hp, hf]
  · intro h
    cases hp : p.pEnv with
    | none =>
      have hf : f = false := by
        rcases h with h | h
        · exact absurd hp h
        · exact h
      simp [Program.redirectToConsole, Program.envOrNew, hp, hf]
    | some e => simp [Program.redirectToConsole, Program.envOrNew, hp]

/-- C23 on a fresh facade, which has no record. -/
theorem setter_getter_round_trip_witness :
    (Program.program { pEnv := none } ['l', 's']).getProgram = ['l', 's'] ∧
    (Program.workingDirectory { pEnv := none } ['/', 'x']).getWorkingDirectory = ['/', 'x'] ∧
    (Program.durationPrecision { pEnv := none } DurationPrecision.dpNone).getDurationPrecision
      = DurationPrecision.dpNone ∧
    (Program.redirectToConsole { pEnv := none } true).getRedirectToConsole = true ∧
    Program.redirectToConsole { pEnv := none } true = { pEnv := none } :=
  have h := setter_getter_round_trip { pEnv := none } ['l', 's'] ['/', 'x']
    DurationPrecision.dpNone true rfl
  ⟨h.1.1, h.2.1.1, h.2.2.1.1, h.2.2.2.1, h.2.2.2.2.1 rfl rfl⟩

end Yuni.Process
